import Mathlib

/-!
Verification of the AASH shell (`src/main.c`, with an identical copy using the
`mmsh_` prefix).  The C code is shallowly embedded: strings are `List Char`,
the NULL terminator of a C token array is modelled by the end of a Lean list,
process-global state (streams, working directory, filesystem outcomes) is an
explicit `World` record threaded through each function, and C `int` return
values are `Int`.
-/

namespace Aash

/-- The tokenizer delimiter set, from `#define LSH_TOK_DELIM " \t\r\n\a"`:
space, tab, carriage return, newline, bell. -/
def LSH_TOK_DELIM : List Char := [' ', '\t', '\r', '\n', '\x07']

/-- Whether a character is one of the `strtok` delimiters. -/
def isDelim (c : Char) : Bool := LSH_TOK_DELIM.contains c

/-- Worker for `lsh_split_line`: `acc` holds the reversed characters of the
token currently being scanned.  This is the state of the `strtok` loop in
`lsh_split_line` (lines 301-318): a delimiter ends the current token (if any),
a non-delimiter extends it, and the end of the line emits the pending token. -/
def splitAux : List Char → List Char → List (List Char)
  | acc, [] => if acc.isEmpty then [] else [acc.reverse]
  | acc, c :: cs =>
    if isDelim c then
      (if acc.isEmpty then [] else [acc.reverse]) ++ splitAux [] cs
    else
      splitAux (c :: acc) cs

/-- Function `lsh_split_line` (main.c lines 290-321): split a line into the tokens that
`strtok` with `LSH_TOK_DELIM` produces, in order.  The C function returns a
NULL-terminated array; the end of the Lean list models the NULL sentinel. -/
def lsh_split_line (line : List Char) : List (List Char) := splitAux [] line

theorem dropWhile_length_le (p : Char → Bool) (l : List Char) :
    (l.dropWhile p).length ≤ l.length := by
  induction l with
  | nil => simp [List.dropWhile]
  | cons c cs ih =>
    rw [List.dropWhile_cons]
    by_cases h : p c
    · simp only [h, if_true]
      exact Nat.le_trans ih (Nat.le_succ _)
    · simp [h]

/-- Spec-side reference definition, following the spec's words: a token is
exactly a maximal run of non-delimiter characters, and the tokens are produced
in order, skipping delimiter runs. -/
def runsSpec : List Char → List (List Char)
  | [] => []
  | c :: cs =>
    if isDelim c then runsSpec cs
    else ((c :: cs).takeWhile (fun x => !isDelim x)) ::
      runsSpec ((c :: cs).dropWhile (fun x => !isDelim x))
termination_by l => l.length
decreasing_by
  · simp only [List.length_cons]
    omega
  · simp only [List.dropWhile_cons]
    simp_all only [Bool.not_eq_true', Bool.not_false, if_true]
    calc (cs.dropWhile (fun x => !isDelim x)).length
        ≤ cs.length := dropWhile_length_le _ cs
      _ < (c :: cs).length := by simp [List.length_cons]

theorem splitAux_eq_runsSpec (l : List Char) :
    ∀ acc : List Char,
      splitAux acc l =
        if acc.isEmpty then runsSpec l
        else (acc.reverse ++ l.takeWhile (fun x => !isDelim x)) ::
          runsSpec (l.dropWhile (fun x => !isDelim x)) := by
  induction l with
  | nil =>
    intro acc
    cases acc with
    | nil => simp [splitAux, runsSpec]
    | cons a as => simp [splitAux, runsSpec]
  | cons c cs ih =>
    intro acc
    by_cases hc : isDelim c
    · cases acc with
      | nil =>
        simp only [splitAux, hc, if_true, List.isEmpty_nil, List.nil_append]
        rw [ih []]
        simp [runsSpec, hc]
      | cons a as =>
        simp only [splitAux, hc, if_true, List.isEmpty_cons]
        rw [ih []]
        simp [runsSpec, hc, List.takeWhile, List.dropWhile]
    · cases acc with
      | nil =>
        simp only [splitAux, hc, if_false, List.isEmpty_nil]
        rw [ih [c]]
        simp [runsSpec, hc, List.takeWhile_cons, List.dropWhile_cons]
      | cons a as =>
        simp only [splitAux, hc, if_false, List.isEmpty_cons]
        rw [ih (c :: a :: as)]
        simp [runsSpec, hc, List.takeWhile_cons, List.dropWhile_cons]

theorem lsh_split_line_eq_runsSpec (line : List Char) :
    lsh_split_line line = runsSpec line := by
  rw [lsh_split_line, splitAux_eq_runsSpec]
  simp

theorem splitAux_tokens_ne_nil (l : List Char) :
    ∀ acc : List Char, ∀ t ∈ splitAux acc l, t ≠ [] := by
  induction l with
  | nil =>
    intro acc t ht
    cases acc with
    | nil => simp [splitAux] at ht
    | cons a as =>
      simp only [splitAux, List.isEmpty_cons, if_neg Bool.false_ne_true,
        List.mem_singleton] at ht
      subst ht
      simp
  | cons c cs ih =>
    intro acc t ht
    by_cases hc : isDelim c
    · simp only [splitAux, hc, if_true, List.mem_append] at ht
      rcases ht with ht | ht
      · cases acc with
        | nil => simp at ht
        | cons a as =>
          simp only [List.isEmpty_cons, if_neg Bool.false_ne_true,
            List.mem_singleton] at ht
          subst ht
          simp
      · exact ih [] t ht
    · simp only [splitAux, hc, if_false] at ht
      exact ih (c :: acc) t ht

theorem splitAux_tokens_delim_free (l : List Char) :
    ∀ acc : List Char, (∀ c ∈ acc, isDelim c = false) →
      ∀ t ∈ splitAux acc l, ∀ c ∈ t, isDelim c = false := by
  induction l with
  | nil =>
    intro acc hacc t ht c hc
    cases acc with
    | nil => simp [splitAux] at ht
    | cons a as =>
      simp only [splitAux, List.isEmpty_cons, if_neg Bool.false_ne_true,
        List.mem_singleton] at ht
      subst ht
      exact hacc c (List.mem_reverse.mp hc)
  | cons x cs ih =>
    intro acc hacc t ht c hc
    by_cases hx : isDelim x
    · simp only [splitAux, hx, if_true, List.mem_append] at ht
      rcases ht with ht | ht
      · cases acc with
        | nil => simp at ht
        | cons a as =>
          simp only [List.isEmpty_cons, if_neg Bool.false_ne_true,
            List.mem_singleton] at ht
          subst ht
          exact hacc c (List.mem_reverse.mp hc)
      · exact ih [] (by simp) t ht c hc
    · simp only [splitAux, hx, if_false] at ht
      refine ih (x :: acc) ?_ t ht c hc
      intro d hd
      rcases List.mem_cons.mp hd with rfl | hd
      · exact Bool.not_eq_true _ ▸ (by simpa using hx)
      · exact hacc d hd

theorem splitAux_all_delim (l : List Char) (h : ∀ c ∈ l, isDelim c = true) :
    splitAux [] l = [] := by
  induction l with
  | nil => simp [splitAux]
  | cons c cs ih =>
    have hc : isDelim c := h c (List.mem_cons_self c cs)
    simp only [splitAux, hc, if_true, List.isEmpty_nil, List.nil_append]
    exact ih (fun d hd => h d (List.mem_cons_of_mem c hd))

/-- Re-joining tokens with single spaces (spec-side operation for the
round-trip property). -/
def joinTokens : List (List Char) → List Char
  | [] => []
  | [t] => t
  | t :: u :: us => t ++ ' ' :: joinTokens (u :: us)

/-- Collapse a line to its whitespace-normal form: every maximal run of
whitespace becomes a single space and leading/trailing whitespace is dropped.
Two lines are whitespace-insensitively equal iff their collapses are equal. -/
def wsCollapse (s : List Char) : List Char := joinTokens (lsh_split_line s)

theorem splitAux_append_delim_free (t : List Char) :
    ∀ acc rest : List Char, (∀ c ∈ t, isDelim c = false) →
      splitAux acc (t ++ rest) = splitAux (t.reverse ++ acc) rest := by
  induction t with
  | nil => intro acc rest _; simp
  | cons c t' ih =>
    intro acc rest h
    have hc : isDelim c = false := h c (List.mem_cons_self c t')
    have step : splitAux acc ((c :: t') ++ rest) =
        splitAux (c :: acc) (t' ++ rest) := by
      simp [splitAux, hc]
    rw [step, ih (c :: acc) rest (fun d hd => h d (List.mem_cons_of_mem c hd))]
    simp [List.append_assoc]

theorem split_joinTokens (ts : List (List Char))
    (hne : ∀ t ∈ ts, t ≠ []) (hdf : ∀ t ∈ ts, ∀ c ∈ t, isDelim c = false) :
    lsh_split_line (joinTokens ts) = ts := by
  induction ts with
  | nil => simp [joinTokens, lsh_split_line, splitAux]
  | cons t ts ih =>
    cases ts with
    | nil =>
      have ht : t ≠ [] := hne t (List.mem_cons_self _ _)
      have hdt : ∀ c ∈ t, isDelim c = false :=
        hdf t (List.mem_cons_self _ _)
      show lsh_split_line (joinTokens [t]) = [t]
      rw [joinTokens, lsh_split_line]
      rw [show t = t ++ ([] : List Char) by simp]
      rw [splitAux_append_delim_free t [] [] (by simpa using hdt)]
      simp [splitAux, List.isEmpty_eq_true, ht]
    | cons u us =>
      have ht : t ≠ [] := hne t (List.mem_cons_self _ _)
      have hdt : ∀ c ∈ t, isDelim c = false := hdf t (List.mem_cons_self _ _)
      have hrest : lsh_split_line (joinTokens (u :: us)) = u :: us :=
        ih (fun s hs => hne s (List.mem_cons_of_mem t hs))
          (fun s hs => hdf s (List.mem_cons_of_mem t hs))
      show lsh_split_line (joinTokens (t :: u :: us)) = t :: u :: us
      rw [joinTokens, lsh_split_line,
        splitAux_append_delim_free t [] (' ' :: joinTokens (u :: us)) hdt]
      have hsp : isDelim ' ' = true := by decide
      simp only [splitAux, hsp, if_true, List.append_nil]
      rw [List.isEmpty_eq_false_iff_exists_mem.mpr ?_]
      · simp only [Bool.false_eq_true, if_false, List.reverse_reverse]
        rw [show splitAux [] (joinTokens (u :: us)) =
          lsh_split_line (joinTokens (u :: us)) from rfl, hrest]
        simp
      · rcases List.exists_mem_of_ne_nil t ht with ⟨c, hcm⟩
        exact ⟨c, List.mem_reverse.mpr hcm⟩

theorem split_join_split (line : List Char) :
    lsh_split_line (joinTokens (lsh_split_line line)) = lsh_split_line line :=
  split_joinTokens (lsh_split_line line)
    (splitAux_tokens_ne_nil line [])
    (splitAux_tokens_delim_free line [] (by simp))

/-- A `waitpid` status: the child exited normally, was terminated by a signal,
or is stopped (reported because of `WUNTRACED`). -/
inductive WaitStatus where
  | exited (code : Nat)
  | signaled (sig : Nat)
  | stopped (sig : Nat)
deriving DecidableEq, Repr

/-- Condition `WIFEXITED(status) || WIFSIGNALED(status)`: the loop condition of the
parent branch of `lsh_launch`. -/
def WaitStatus.isTerminal : WaitStatus → Bool
  | .exited _ => true
  | .signaled _ => true
  | .stopped _ => false

/-- The process-global state the shell touches, together with the outcomes the
operating system would deliver for each system call (an oracle fixed per
world).  `stdout`/`stderr` accumulate everything written so far. -/
structure World where
  stdout : List Char
  stderr : List Char
  /-- current working directory of the process -/
  cwd : List Char
  /-- directories created so far by successful `mkdir` calls -/
  dirs : List (List Char)
  /-- outcome of `chdir path`: `some newCwd` on success, `none` on failure -/
  chdirTo : List Char → Option (List Char)
  /-- outcome of `mkdir path 0755`: whether the call succeeds -/
  mkdirOk : List Char → Bool
  /-- outcome of `getcwd`: whether the call succeeds -/
  getcwdOk : Bool
  /-- the (unspecified) buffer contents left behind when `getcwd` fails -/
  getcwdJunk : List Char
  /-- outcome of `opendir "./"` + `readdir`: the entries in OS order, or
  `none` when the directory cannot be opened -/
  lsEntries : Option (List (List Char))
  /-- the `strerror(errno)` text `perror` would append at a failure -/
  errnoMsg : List Char
  /-- outcome of `fork`: whether it returns a negative pid -/
  forkFails : Bool
  /-- the statuses `waitpid(pid, &status, WUNTRACED)` delivers, in order -/
  waitStatuses : List WaitStatus
  /-- the last status stored by the parent's wait loop (the local `status`
  variable after the `do`/`while`) -/
  lastStatus : Option WaitStatus

/-- Model of `perror(pre)`: writes `pre`, then `": "`, then `strerror(errno)` and a
newline, to the error stream. -/
def perrorOut (pre : List Char) (w : World) : List Char :=
  pre ++ ": ".toList ++ w.errnoMsg ++ ['\x0a']

/-- Builtin `lsh_echo` (main.c lines 69-78): for each argument after the command name,
`printf("%s ", arg)`; then `printf("\n")`.  Always returns 1. -/
def lsh_echo (args : List (List Char)) (w : World) : World × Int :=
  ({ w with stdout :=
      w.stdout ++ ((args.drop 1).map (fun t => t ++ [' '])).flatten ++ ['\x0a'] },
   1)

/-- Builtin `lsh_pwd` (main.c lines 85-91): calls `getcwd` without checking its result
and prints `"Current working dir: %s\n"` with the buffer contents (the cwd on
success, unspecified junk on failure).  Always returns 1. -/
def lsh_pwd (args : List (List Char)) (w : World) : World × Int :=
  ({ w with stdout := w.stdout ++ "Current working dir: ".toList ++
      (if w.getcwdOk then w.cwd else w.getcwdJunk) ++ ['\x0a'] },
   1)

/-- Builtin `lsh_cd` (main.c lines 98-109): with no `args[1]`, prints a usage message
to stderr; otherwise `chdir(args[1])`, printing `perror("lsh")` on failure.
Always returns 1. -/
def lsh_cd (args : List (List Char)) (w : World) : World × Int :=
  match args.drop 1 with
  | [] =>
    ({ w with stderr :=
        w.stderr ++ "lsh: expected argument to \x22cd\x22\x0a".toList }, 1)
  | p :: _ =>
    match w.chdirTo p with
    | some newCwd => ({ w with cwd := newCwd }, 1)
    | none => ({ w with stderr := w.stderr ++ perrorOut "lsh".toList w }, 1)

/-- Builtin `lsh_ls` (main.c lines 116-132): opens `"./"`; on success prints each
entry followed by a newline, otherwise `perror`.  Always returns 1. -/
def lsh_ls (args : List (List Char)) (w : World) : World × Int :=
  match w.lsEntries with
  | some entries =>
    ({ w with stdout :=
        w.stdout ++ (entries.map (fun e => e ++ ['\x0a'])).flatten }, 1)
  | none =>
    ({ w with stderr :=
        w.stderr ++ perrorOut "Couldn\x27t open the directory".toList w }, 1)

/-- Builtin `lsh_mkdir` (main.c lines 139-150): with no `args[1]`, prints a usage
message to stderr; otherwise `mkdir(args[1], 0755)`, printing `perror("lsh")`
on failure.  Always returns 1. -/
def lsh_mkdir (args : List (List Char)) (w : World) : World × Int :=
  match args.drop 1 with
  | [] =>
    ({ w with stderr :=
        w.stderr ++ "lsh: expected argument to \x22mkdir\x22\x0a".toList }, 1)
  | p :: _ =>
    if w.mkdirOk p then ({ w with dirs := w.dirs ++ [p] }, 1)
    else ({ w with stderr := w.stderr ++ perrorOut "lsh".toList w }, 1)

/-- The builtin name table `builtin_str` (main.c lines 36-44). -/
def builtin_str : List (List Char) :=
  ["echo".toList, "pwd".toList, "ls".toList, "mkdir".toList,
   "cd".toList, "help".toList, "exit".toList]

/-- Builtin `lsh_help` (main.c lines 158-171): prints a static banner, then each
builtin name indented by two spaces, then a closing line.  Always returns 1. -/
def lsh_help (args : List (List Char)) (w : World) : World × Int :=
  ({ w with stdout := w.stdout ++
      "Stephen Brennan\x27s LSH\x0a".toList ++
      "Type program names and arguments, and hit enter.\x0a".toList ++
      "The following are built in:\x0a".toList ++
      (builtin_str.map (fun s => "  ".toList ++ s ++ ['\x0a'])).flatten ++
      "Use the man command for information on other programs.\x0a".toList },
   1)

/-- Builtin `lsh_exit` (main.c lines 178-181): does nothing and returns 0, the
terminate signal. -/
def lsh_exit (args : List (List Char)) (w : World) : World × Int := (w, 0)

/-- The parent's wait loop in `lsh_launch` (main.c lines 207-209):
`do { waitpid(pid, &status, WUNTRACED); } while (!WIFEXITED(status) &&
!WIFSIGNALED(status));` — keep waiting while the delivered status is a stop
notification; return the first terminal status.  `none` models the loop never
getting a terminal status (it would block forever). -/
def waitLoop : List WaitStatus → Option WaitStatus
  | [] => none
  | s :: rest => if s.isTerminal then some s else waitLoop rest

/-- Launcher `lsh_launch` (main.c lines 188-213): fork; if the fork fails,
`perror("lsh")`; otherwise the parent blocks in the wait loop (the child runs
in a separate process and does not affect the parent's state or return value).
Always returns 1. -/
def lsh_launch (args : List (List Char)) (w : World) : World × Int :=
  if w.forkFails then
    ({ w with stderr := w.stderr ++ perrorOut "lsh".toList w }, 1)
  else
    ({ w with lastStatus := waitLoop w.waitStatuses }, 1)

/-- The handler table `builtin_func` zipped with `builtin_str` (main.c lines
36-54): the C keeps two parallel arrays indexed together; the pairing is the
same mapping. -/
def builtins : List (List Char × (List (List Char) → World → World × Int)) :=
  [("echo".toList, lsh_echo), ("pwd".toList, lsh_pwd), ("ls".toList, lsh_ls),
   ("mkdir".toList, lsh_mkdir), ("cd".toList, lsh_cd),
   ("help".toList, lsh_help), ("exit".toList, lsh_exit)]

/-- Dispatcher `lsh_execute` (main.c lines 220-236): an empty argument vector is a no-op
returning 1; otherwise scan the builtin table for a name `strcmp`-equal to
`args[0]` and call its handler with the full vector; with no match, delegate
to `lsh_launch`. -/
def lsh_execute (args : List (List Char)) (w : World) : World × Int :=
  match args with
  | [] => (w, 1)
  | name :: _ =>
    match builtins.find? (fun b => b.1 == name) with
    | some b => b.2 args w
    | none => lsh_launch args w

/-- Reader `lsh_read_line` (main.c lines 243-281): read characters until a newline
(return the accumulated characters, newline excluded, paired with the rest of
the stream) or end-of-stream (`none`: the C code calls `exit(EXIT_SUCCESS)`
at once, printing nothing, whether or not characters were accumulated). -/
def lsh_read_line : List Char → Option (List Char × List Char)
  | [] => none
  | c :: cs =>
    if c = '\n' then some ([], cs)
    else
      match lsh_read_line cs with
      | none => none
      | some (l, r) => some (c :: l, r)

theorem lsh_read_line_rest_lt (stdin : List Char) :
    ∀ l r, lsh_read_line stdin = some (l, r) → r.length < stdin.length := by
  induction stdin with
  | nil => intro l r h; simp [lsh_read_line] at h
  | cons c cs ih =>
    intro l r h
    by_cases hc : c = '\n'
    · simp only [lsh_read_line, hc, if_true, Option.some.injEq, Prod.mk.injEq] at h
      rw [← h.2]
      simp
    · simp only [lsh_read_line, hc, if_false] at h
      cases hr : lsh_read_line cs with
      | none => rw [hr] at h; exact absurd h (by simp)
      | some p =>
        rw [hr] at h
        obtain ⟨l', r'⟩ := p
        simp only [Option.some.injEq, Prod.mk.injEq] at h
        have := ih l' r' hr
        rw [← h.2]
        exact Nat.lt_trans this (by simp)

/-- How the whole process can end. -/
inductive ProcExit where
  | success
  | failure
deriving DecidableEq, Repr

/-- Loop `lsh_loop` (main.c lines 326-341) together with `main` (lines 349-359):
print the prompt, read a line (end-of-stream makes `lsh_read_line` call
`exit(EXIT_SUCCESS)`), tokenize, execute; loop while the status is nonzero;
when the loop ends, `main` returns `EXIT_SUCCESS`.  The result is the final
world and the process exit status. -/
def lsh_loop (stdin : List Char) (w : World) : World × ProcExit :=
  let w1 := { w with stdout := w.stdout ++ "> ".toList }
  match h : lsh_read_line stdin with
  | none => (w1, ProcExit.success)
  | some (line, rest) =>
    let res := lsh_execute (lsh_split_line line) w1
    if res.2 = 0 then (res.1, ProcExit.success)
    else lsh_loop rest res.1
termination_by stdin.length
decreasing_by
  exact lsh_read_line_rest_lt stdin line rest h

/-- A concrete world for witnesses: empty streams, every fallible system call
set to fail, `getcwd` succeeding. -/
def W0 : World where
  stdout := []
  stderr := []
  cwd := "/home/user".toList
  dirs := []
  chdirTo := fun _ => none
  mkdirOk := fun _ => false
  getcwdOk := true
  getcwdJunk := []
  lsEntries := none
  errnoMsg := "No such file or directory".toList
  forkFails := false
  waitStatuses := []
  lastStatus := none

/-- A world in which `getcwd` fails, leaving junk in the buffer. -/
def WFailCwd : World := { W0 with getcwdOk := false, getcwdJunk := "??".toList }

/-- A world in which `fork` fails. -/
def WFork : World := { W0 with forkFails := true }

/-- A world whose child is first stopped, then exits. -/
def WWait : World :=
  { W0 with waitStatuses := [WaitStatus.stopped 19, WaitStatus.exited 0] }

theorem waitLoop_skips_stops (ss : List WaitStatus) (t : WaitStatus)
    (rest : List WaitStatus) (hss : ∀ s ∈ ss, s.isTerminal = false)
    (ht : t.isTerminal = true) :
    waitLoop (ss ++ t :: rest) = some t := by
  induction ss with
  | nil => simp [waitLoop, ht]
  | cons s ss ih =>
    have h := hss s (List.mem_cons_self _ _)
    simp only [List.cons_append, waitLoop, h, Bool.false_eq_true, if_false]
    exact ih (fun x hx => hss x (List.mem_cons_of_mem s hx))

/-- C1: `lsh_execute` on an empty argument vector performs no action and
returns 1 (continue); on a vector whose first token is exactly (case-sensitively)
one of the seven builtin names, it invokes that builtin's handler with the full
vector and returns the handler's signal; otherwise it delegates the full vector
to `lsh_launch` and returns its signal. -/
theorem lsh_execute_dispatch (w : World) (name : List Char)
    (rest : List (List Char)) :
    lsh_execute [] w = (w, 1) ∧
    lsh_execute (name :: rest) w =
      (if name = "echo".toList then lsh_echo (name :: rest) w
       else if name = "pwd".toList then lsh_pwd (name :: rest) w
       else if name = "ls".toList then lsh_ls (name :: rest) w
       else if name = "mkdir".toList then lsh_mkdir (name :: rest) w
       else if name = "cd".toList then lsh_cd (name :: rest) w
       else if name = "help".toList then lsh_help (name :: rest) w
       else if name = "exit".toList then lsh_exit (name :: rest) w
       else lsh_launch (name :: rest) w) := by
  refine ⟨rfl, ?_⟩
  by_cases h1 : name = "echo".toList
  · subst h1; rfl
  by_cases h2 : name = "pwd".toList
  · subst h2; rfl
  by_cases h3 : name = "ls".toList
  · subst h3; rfl
  by_cases h4 : name = "mkdir".toList
  · subst h4; rfl
  by_cases h5 : name = "cd".toList
  · subst h5; rfl
  by_cases h6 : name = "help".toList
  · subst h6; rfl
  by_cases h7 : name = "exit".toList
  · subst h7; rfl
  have b1 : ("echo".toList == name) = false :=
    beq_eq_false_iff_ne.mpr (fun h => h1 h.symm)
  have b2 : ("pwd".toList == name) = false :=
    beq_eq_false_iff_ne.mpr (fun h => h2 h.symm)
  have b3 : ("ls".toList == name) = false :=
    beq_eq_false_iff_ne.mpr (fun h => h3 h.symm)
  have b4 : ("mkdir".toList == name) = false :=
    beq_eq_false_iff_ne.mpr (fun h => h4 h.symm)
  have b5 : ("cd".toList == name) = false :=
    beq_eq_false_iff_ne.mpr (fun h => h5 h.symm)
  have b6 : ("help".toList == name) = false :=
    beq_eq_false_iff_ne.mpr (fun h => h6 h.symm)
  have b7 : ("exit".toList == name) = false :=
    beq_eq_false_iff_ne.mpr (fun h => h7 h.symm)
  rw [if_neg h1, if_neg h2, if_neg h3, if_neg h4, if_neg h5, if_neg h6,
    if_neg h7]
  simp only [lsh_execute, builtins, List.find?, b1, b2, b3, b4, b5, b6, b7]

/-- C2: every builtin except `exit` returns 1 (continue) on every argument
vector; `lsh_exit` returns 0 (terminate) on every argument vector and leaves
the world untouched; and whenever the line read from the input tokenizes to a
vector whose first token is `exit`, the REPL loop stops at once and the
process exits with a success status, whatever the rest of the state. -/
theorem builtin_signals (stdin : List Char) (w : World)
    (line rest : List Char) (ts : List (List Char)) :
    (∀ a v, (lsh_echo a v).2 = 1) ∧ (∀ a v, (lsh_pwd a v).2 = 1) ∧
    (∀ a v, (lsh_ls a v).2 = 1) ∧ (∀ a v, (lsh_mkdir a v).2 = 1) ∧
    (∀ a v, (lsh_cd a v).2 = 1) ∧ (∀ a v, (lsh_help a v).2 = 1) ∧
    (∀ a v, lsh_exit a v = (v, 0)) ∧
    (lsh_read_line stdin = some (line, rest) →
      lsh_split_line line = "exit".toList :: ts →
      lsh_loop stdin w =
        ({ w with stdout := w.stdout ++ "> ".toList }, ProcExit.success)) := by
  refine ⟨fun a v => rfl, fun a v => rfl, ?_, ?_, ?_, fun a v => rfl,
    fun a v => rfl, ?_⟩
  · intro a v
    cases h : v.lsEntries <;> simp [lsh_ls, h]
  · intro a v
    unfold lsh_mkdir
    split
    · rfl
    · split <;> rfl
  · intro a v
    unfold lsh_cd
    split
    · rfl
    · split <;> rfl
  · intro hr hs
    rw [lsh_loop.eq_def]
    split
    · rename_i h; rw [h] at hr
    · rename_i l r h
      rw [h] at hr
      simp only [Option.some.injEq, Prod.mk.injEq] at hr
      obtain ⟨rfl, rfl⟩ := hr
      rw [hs]
      rfl

/-- Witness for C2 at the concrete input line `exit` followed by newline. -/
theorem builtin_signals_witness :
    lsh_read_line "exit\x0a".toList = some ("exit".toList, []) ∧
    lsh_split_line "exit".toList = "exit".toList :: [] ∧
    lsh_loop "exit\x0a".toList W0 =
      ({ W0 with stdout := W0.stdout ++ "> ".toList }, ProcExit.success) :=
  ⟨by decide, by decide,
   (builtin_signals "exit\x0a".toList W0 "exit".toList [] []).2.2.2.2.2.2.2
     (by decide) (by decide)⟩

/-- C3: when the line reader sees end-of-stream with zero characters
accumulated (the input stream is empty), it signals immediate process
termination (`none`, modelling `exit(EXIT_SUCCESS)`), and the REPL loop run on
an empty stream ends the process with a success status having printed nothing
beyond the prompt and never reaching a dispatch. -/
theorem read_line_eof_exits (w : World) :
    lsh_read_line [] = none ∧
    lsh_loop [] w =
      ({ w with stdout := w.stdout ++ "> ".toList }, ProcExit.success) := by
  refine ⟨rfl, ?_⟩
  rw [lsh_loop.eq_def]
  split
  · rfl
  · rename_i l r h
    exact absurd h (by simp [lsh_read_line])

/-- C4: the tokenizer produces exactly the ordered sequence of maximal runs of
non-delimiter characters (delimiters: space, tab, carriage return, newline,
bell); every token is non-empty and delimiter-free; a line that is empty or
all-delimiter yields the empty sequence (only the end marker, which the end of
the Lean list models). -/
theorem lsh_split_line_tokens (line : List Char) :
    lsh_split_line line = runsSpec line ∧
    (∀ t ∈ lsh_split_line line, t ≠ [] ∧ ∀ c ∈ t, isDelim c = false) ∧
    (line.all isDelim = true → lsh_split_line line = []) := by
  refine ⟨lsh_split_line_eq_runsSpec line, ?_, ?_⟩
  · intro t ht
    exact ⟨splitAux_tokens_ne_nil line [] t ht,
      splitAux_tokens_delim_free line [] (by simp) t ht⟩
  · intro h
    exact splitAux_all_delim line (by simpa [List.all_eq_true] using h)

/-- Witness for C4: an all-delimiter line tokenizes to the empty sequence, and
a concrete token of a concrete line is non-empty. -/
theorem lsh_split_line_tokens_witness :
    (" \x09 ".toList.all isDelim = true ∧ lsh_split_line " \x09 ".toList = []) ∧
    (['a'] ∈ lsh_split_line " a b".toList ∧ ['a'] ≠ []) :=
  ⟨⟨by decide, (lsh_split_line_tokens " \x09 ".toList).2.2 (by decide)⟩,
   ⟨by decide, ((lsh_split_line_tokens " a b".toList).2.1 ['a'] (by decide)).1⟩⟩

/-- C5: for every non-empty line, re-joining the tokens with single spaces
yields a string whitespace-insensitively equal to the original (equal after
collapsing whitespace runs and trimming), and tokenizing the re-joined string
yields the same token sequence. -/
theorem tokenize_roundtrip (line : List Char) (h : line ≠ []) :
    wsCollapse (joinTokens (lsh_split_line line)) = wsCollapse line ∧
    lsh_split_line (joinTokens (lsh_split_line line)) = lsh_split_line line := by
  refine ⟨?_, split_join_split line⟩
  rw [wsCollapse, wsCollapse, split_join_split line]

/-- Witness for C5 at the concrete line `  a  b ` (note the collapsed result
`a b`). -/
theorem tokenize_roundtrip_witness :
    ("  a  b ".toList ≠ []) ∧
    wsCollapse (joinTokens (lsh_split_line "  a  b ".toList)) =
      wsCollapse "  a  b ".toList ∧
    lsh_split_line (joinTokens (lsh_split_line "  a  b ".toList)) =
      lsh_split_line "  a  b ".toList :=
  ⟨by decide, (tokenize_roundtrip "  a  b ".toList (by decide)).1,
   (tokenize_roundtrip "  a  b ".toList (by decide)).2⟩

/-- C6 counterexample: the input `echo a b c` produces the output
`"a b c \n"` — with a trailing space before the newline, because the loop in
`lsh_echo` prints `"%s "` for every argument — which differs from the
`"a b c\n"` the claim states. -/
theorem lsh_echo_trailing_space :
    (lsh_echo ["echo".toList, "a".toList, "b".toList, "c".toList] W0).1.stdout
      = "a b c \x0a".toList ∧
    "a b c \x0a".toList ≠ "a b c\x0a".toList := ⟨rfl, by decide⟩

/-- C6 (amended): `lsh_echo` prints each argument after the command name
followed by one space, then a final newline, on standard output (touching
nothing else and returning 1); in particular `echo a b c` produces exactly
`"a b c \n"`. -/
theorem lsh_echo_spec (args : List (List Char)) (w : World) :
    lsh_echo args w =
      ({ w with stdout := w.stdout ++
          ((args.drop 1).map (fun t => t ++ [' '])).flatten ++ ['\x0a'] }, 1) ∧
    (lsh_echo ["echo".toList, "a".toList, "b".toList, "c".toList] W0).1.stdout
      = "a b c \x0a".toList := ⟨rfl, rfl⟩

/-- C7: `cd` with no argument writes the usage diagnostic to the error stream
and changes nothing else (in particular the working directory), and `cd` with
a path that `chdir` refuses writes the `perror` diagnostic to the error stream
and changes nothing else; both return 1 (continue). -/
theorem lsh_cd_errors (cmd p : List Char) (rest : List (List Char))
    (w : World) :
    lsh_cd [cmd] w =
      ({ w with stderr :=
          w.stderr ++ "lsh: expected argument to \x22cd\x22\x0a".toList }, 1) ∧
    (w.chdirTo p = none →
      lsh_cd (cmd :: p :: rest) w =
        ({ w with stderr := w.stderr ++ perrorOut "lsh".toList w }, 1)) := by
  refine ⟨rfl, fun h => ?_⟩
  unfold lsh_cd
  simp [h]

/-- Witness for C7: in `W0` every `chdir` fails; both error paths evaluated at
concrete inputs. -/
theorem lsh_cd_errors_witness :
    W0.chdirTo "/nonexistent".toList = none ∧
    lsh_cd ["cd".toList] W0 =
      ({ W0 with stderr :=
          W0.stderr ++ "lsh: expected argument to \x22cd\x22\x0a".toList }, 1) ∧
    lsh_cd ["cd".toList, "/nonexistent".toList] W0 =
      ({ W0 with stderr := W0.stderr ++ perrorOut "lsh".toList W0 }, 1) :=
  ⟨rfl, (lsh_cd_errors "cd".toList "/nonexistent".toList [] W0).1,
   (lsh_cd_errors "cd".toList "/nonexistent".toList [] W0).2 rfl⟩

/-- C8 counterexample: in a world where `getcwd` fails, `lsh_pwd` writes
nothing to the error stream (the claim requires a message there), because the
code never checks the result of `getcwd`. -/
theorem lsh_pwd_no_error_report :
    WFailCwd.getcwdOk = false ∧
    (lsh_pwd ["pwd".toList] WFailCwd).1.stderr = WFailCwd.stderr ∧
    (lsh_pwd ["pwd".toList] WFailCwd).1.stdout =
      "Current working dir: ??\x0a".toList := ⟨rfl, rfl, rfl⟩

/-- C8 (amended): `lsh_pwd` prints `Current working dir: ` followed by the
`getcwd` buffer (the working directory when retrieval succeeds, unspecified
buffer contents when it fails) and a newline on standard output, and returns 1;
retrieval failure is not detected and no message is ever written to the error
stream. -/
theorem lsh_pwd_spec (args : List (List Char)) (w : World) :
    lsh_pwd args w =
      ({ w with stdout := w.stdout ++ "Current working dir: ".toList ++
          (if w.getcwdOk then w.cwd else w.getcwdJunk) ++ ['\x0a'] }, 1) ∧
    (lsh_pwd args w).1.stderr = w.stderr := ⟨rfl, rfl⟩

/-- C9: `lsh_launch` returns 1 (continue) for every world, surfacing no exit
code; on fork failure it reports via `perror` on the error stream and returns
1; on the normal path the parent's wait loop skips every stop notification and
ends exactly at the first terminal status (normal exit or signal). -/
theorem lsh_launch_wait (args : List (List Char)) (w : World)
    (ss : List WaitStatus) (t : WaitStatus) (rest : List WaitStatus) :
    ((lsh_launch args w).2 = 1) ∧
    (w.forkFails = true →
      lsh_launch args w =
        ({ w with stderr := w.stderr ++ perrorOut "lsh".toList w }, 1)) ∧
    (w.forkFails = false → w.waitStatuses = ss ++ t :: rest →
      (∀ s ∈ ss, s.isTerminal = false) → t.isTerminal = true →
      lsh_launch args w = ({ w with lastStatus := some t }, 1)) := by
  refine ⟨?_, fun h => by simp [lsh_launch, h], fun h hw hss ht => ?_⟩
  · by_cases h : w.forkFails <;> simp [lsh_launch, h]
  · simp only [lsh_launch, h, Bool.false_eq_true, if_false, hw,
      waitLoop_skips_stops ss t rest hss ht]

/-- Witness for C9: a failing fork, and a child that is stopped once and then
exits. -/
theorem lsh_launch_wait_witness :
    WFork.forkFails = true ∧ WWait.forkFails = false ∧
    WWait.waitStatuses = [WaitStatus.stopped 19] ++ WaitStatus.exited 0 :: [] ∧
    lsh_launch ["a".toList] WFork =
      ({ WFork with stderr := WFork.stderr ++ perrorOut "lsh".toList WFork },
       1) ∧
    lsh_launch ["a".toList] WWait =
      ({ WWait with lastStatus := some (WaitStatus.exited 0) }, 1) :=
  ⟨rfl, rfl, rfl,
   (lsh_launch_wait ["a".toList] WFork [] (WaitStatus.exited 0) []).2.1 rfl,
   (lsh_launch_wait ["a".toList] WWait [WaitStatus.stopped 19]
      (WaitStatus.exited 0) []).2.2 rfl rfl (by decide) rfl⟩

/-- C10: `cd` and `mkdir` invoked with more than one argument after the
command name behave exactly as if invoked with only the first one: the extra
arguments are silently ignored, with identical effect (so no diagnostic about
them) and identical return value. -/
theorem cd_mkdir_ignore_extra_args (cmd p : List Char)
    (extra : List (List Char)) (w : World) :
    lsh_cd (cmd :: p :: extra) w = lsh_cd [cmd, p] w ∧
    lsh_mkdir (cmd :: p :: extra) w = lsh_mkdir [cmd, p] w := ⟨rfl, rfl⟩

end Aash
